import Mathlib

/-!
Verification development for the SnnDL tiled spiking-neural-network simulator.

Shallow embedding of the components the specification's claims refer to:
the LIF neuron update (SnnPE.cc, SnnPESubComponent.cc), the on-tile
virtual-channel ring (OptimizedInternalRing.cc/.h), the spike event value
type (SpikeEvent.h), the NIC send path (SnnNIC.cc), the spike-trace text
loader (SpikeSource) and the MultiCorePE configuration validation.

Machine floats (`float`/`double` in the source) are modelled as exact
rationals; the only float operation the claims depend on that is not exact
is `exp(-1/tau)`, which both cores use as a precomputed multiplicative
leak factor, so it is carried as an abstract rational parameter.
-/

namespace SnnDL

/-- Membrane potentials and synaptic weights (`float`/`double` in the source). -/
abbrev F := ℚ

/-! ## Neuron model (SnnPE.cc / SnnPESubComponent.cc) -/

/-- Per-neuron state, `NeuronState` in the source: membrane potential,
remaining refractory cycles, and the cycle of the last emitted spike. -/
structure NeuronState where
  v_mem : F
  refractory_timer : ℕ
  last_spike_time : ℕ
deriving DecidableEq, Repr

/-- The LIF parameters read from the component configuration.
`leak_factor` stands for `exp(-1.0f/tau_mem)` with dt = 1 simulated ms,
precomputed in SnnPE and recomputed per call in SnnPESubComponent. -/
structure LifParams where
  v_thresh : F
  v_reset : F
  v_rest : F
  t_ref : ℕ
  leak_factor : F
deriving DecidableEq, Repr

/-- The `SnnPE::checkAndFireSpike` (SnnPE.cc lines 687-714), the firing decision
and the immediate state reset on the tested neuron.  The source tests only
`v_mem >= v_thresh`; on firing it sets `v_mem = v_reset` and
`refractory_timer = t_ref`.  Returns the new state and whether it fired. -/
def SnnPE.checkAndFireSpike (p : LifParams) (n : NeuronState) :
    NeuronState × Bool :=
  if p.v_thresh ≤ n.v_mem then
    ({ n with v_mem := p.v_reset, refractory_timer := p.t_ref }, true)
  else
    (n, false)

/-- The `SnnPESubComponent::checkAndFireSpike` (SnnPESubComponent.cc lines
393-411): fires when `v_mem >= v_thresh && refractory_timer == 0`; on firing
sets `v_mem = v_reset`, `refractory_timer = t_ref` and records the cycle. -/
def SnnPESubComponent.checkAndFireSpike (p : LifParams) (cycle : ℕ)
    (n : NeuronState) : NeuronState × Bool :=
  if p.v_thresh ≤ n.v_mem ∧ n.refractory_timer = 0 then
    ({ v_mem := p.v_reset, refractory_timer := p.t_ref,
       last_spike_time := cycle }, true)
  else
    (n, false)

/-- The `SnnPE::applyLeak` (SnnPE.cc lines 681-685):
`v_mem = v_rest + (v_mem - v_rest) * leak_factor`, unconditionally. -/
def SnnPE.applyLeak (p : LifParams) (v : F) : F :=
  p.v_rest + (v - p.v_rest) * p.leak_factor

/-- The `SnnPESubComponent::applyLeak` (SnnPESubComponent.cc lines 381-391):
the same exponential decay, but only applied when `v_mem > v_rest`;
otherwise the membrane potential is left unchanged. -/
def SnnPESubComponent.applyLeak (p : LifParams) (v : F) : F :=
  if p.v_rest < v then p.v_rest + (v - p.v_rest) * p.leak_factor else v

/-- The per-neuron step of `SnnPE::clockTick` (SnnPE.cc lines 322-333):
a refractory neuron only has its timer decremented; a non-refractory
neuron has the leak applied. -/
def SnnPE.tickNeuron (p : LifParams) (n : NeuronState) : NeuronState :=
  if 0 < n.refractory_timer then
    { n with refractory_timer := n.refractory_timer - 1 }
  else
    { n with v_mem := SnnPE.applyLeak p n.v_mem }

/-- The per-neuron step of `SnnPESubComponent::updateNeuronStates`
(SnnPESubComponent.cc lines 365-379): a refractory neuron only has its
timer decremented (`continue`); a non-refractory neuron goes through
`SnnPESubComponent::applyLeak`. -/
def SnnPESubComponent.tickNeuron (p : LifParams) (n : NeuronState) :
    NeuronState :=
  if 0 < n.refractory_timer then
    { n with refractory_timer := n.refractory_timer - 1 }
  else
    { n with v_mem := SnnPESubComponent.applyLeak p n.v_mem }

/-! ## Spike event value type (SpikeEvent.h) -/

/-- The `SpikeEvent` value type.  Integer widths (u32/u64) do not matter for
any claim here, so the fields are carried as naturals; `weight` is a
`double` in the source.  `hop_count` has the in-class initializer `= 0`. -/
structure SpikeEvent where
  neuron_id : ℕ
  timestamp : ℕ
  dest_neuron : ℕ
  dest_node : ℕ
  weight : F
  hop_count : ℕ
deriving DecidableEq, Repr

/-- The `MAX_HOPS` in SpikeEvent.h. -/
def SpikeEvent.MAX_HOPS : ℕ := 10

/-- One value written to the serializer stream by `SST_SER`. -/
inductive SerField where
  | natF (n : ℕ)
  | ratF (q : F)
deriving DecidableEq, Repr

/-- The `SpikeEvent::serialize_order` in pack direction (SpikeEvent.h lines
94-101): it writes `neuron_id`, `timestamp`, `dest_neuron`, `dest_node`,
`weight` — and nothing else.  In particular `hop_count` is not written. -/
def SpikeEvent.serialize (e : SpikeEvent) : List SerField :=
  [.natF e.neuron_id, .natF e.timestamp, .natF e.dest_neuron,
   .natF e.dest_node, .ratF e.weight]

/-- The `SpikeEvent::serialize_order` in unpack direction: the five serialized
fields are read back in order into a default-constructed event, whose
`hop_count` keeps its in-class initializer `0`. -/
def SpikeEvent.deserialize (l : List SerField) : Option SpikeEvent :=
  match l with
  | [.natF nid, .natF ts, .natF dn, .natF node, .ratF w] =>
      some { neuron_id := nid, timestamp := ts, dest_neuron := dn,
             dest_node := node, weight := w, hop_count := 0 }
  | _ => none

/-! ## On-tile ring network (OptimizedInternalRing.h / .cc)

The statistics counters, the `VCState` tag and the `last_activity_cycle`
stamp of the source are written but never read by any control decision,
so they are omitted; the route lookup cache memoises the deterministic
`selectRoute` computation and is therefore transparent as well. -/

/-- The `RingMessageType` in OptimizedInternalRing.h. -/
inductive RingMessageType where
  | spikeMessage
  | memoryRequest
  | memoryResponse
  | controlMessage
deriving DecidableEq, Repr

/-- The `RingMessage`.  The payload is an untyped pointer in the source, owned
by the sender and never consulted by the ring's routing; it is dropped
from the model. -/
structure RingMessage where
  mtype : RingMessageType
  src_unit : ℤ
  dst_unit : ℤ
  timestamp : ℕ
  priority : ℤ
deriving DecidableEq, Repr

/-- The `RouteDirection` in OptimizedInternalRing.h. -/
inductive RouteDirection where
  | clockwise
  | counterClockwise
  | localDir
  | invalid
deriving DecidableEq, Repr

/-- The `VirtualChannel`: FIFO buffer plus credit counter. -/
structure VirtualChannel where
  vc_id : ℕ
  priority : ℤ
  buffer : List RingMessage
  credits : ℕ
  max_credits : ℕ
deriving DecidableEq, Repr

/-- The `VirtualChannel::hasSpace`: `credits > 0 && buffer.size() < max_credits`. -/
def VirtualChannel.hasSpace (vc : VirtualChannel) : Bool :=
  decide (0 < vc.credits) && decide (vc.buffer.length < vc.max_credits)

/-- The `VirtualChannel::hasData`: `!buffer.empty()`. -/
def VirtualChannel.hasData (vc : VirtualChannel) : Bool :=
  !vc.buffer.isEmpty

/-- The `VirtualChannel::consumeCredit`: `if (credits > 0) credits--`.
Truncated natural subtraction is exactly this guarded decrement. -/
def VirtualChannel.consumeCredit (vc : VirtualChannel) : VirtualChannel :=
  { vc with credits := vc.credits - 1 }

/-- The `VirtualChannel::returnCredit`: `if (credits < max_credits) credits++`. -/
def VirtualChannel.returnCredit (vc : VirtualChannel) : VirtualChannel :=
  if vc.credits < vc.max_credits then { vc with credits := vc.credits + 1 }
  else vc

/-- The `RingNode`: the three per-direction VC arrays and the local ejection
queue.  The `next_cw`/`prev_cw` pointers of the source are realised by
index arithmetic on the node list ((i+1) mod K and (i+K-1) mod K, as set
up by `initializeTopology`); the injection queue is never used
(`processInjectionQueue` is a no-op) and is omitted. -/
structure RingNode where
  node_id : ℤ
  cw_vcs : List VirtualChannel
  ccw_vcs : List VirtualChannel
  local_vcs : List VirtualChannel
  ejection_queue : List RingMessage
deriving DecidableEq, Repr

/-- The `RingNode::initializeVCs` builds, per direction, `num_vcs` channels
with `vc id = priority = index` and `credits = max_credits`. -/
def initVCList (num_vcs credits_per_vc : ℕ) : List VirtualChannel :=
  (List.range num_vcs).map fun i =>
    { vc_id := i, priority := (i : ℤ), buffer := [],
      credits := credits_per_vc, max_credits := credits_per_vc }

/-- A freshly constructed ring node (`RingNode(i)` then `initializeVCs`). -/
def RingNode.mkInit (i : ℤ) (num_vcs credits_per_vc : ℕ) : RingNode :=
  { node_id := i,
    cw_vcs := initVCList num_vcs credits_per_vc,
    ccw_vcs := initVCList num_vcs credits_per_vc,
    local_vcs := initVCList num_vcs credits_per_vc,
    ejection_queue := [] }

/-- The `getVCs(node, direction)` — `INVALID` falls back to an empty array. -/
def RingNode.getVCs (n : RingNode) (dir : RouteDirection) :
    List VirtualChannel :=
  match dir with
  | .clockwise => n.cw_vcs
  | .counterClockwise => n.ccw_vcs
  | .localDir => n.local_vcs
  | .invalid => []

/-- Write back the VC array of one direction (the source mutates the array
returned by `getVCs` in place). -/
def RingNode.setVCs (n : RingNode) (dir : RouteDirection)
    (vcs : List VirtualChannel) : RingNode :=
  match dir with
  | .clockwise => { n with cw_vcs := vcs }
  | .counterClockwise => { n with ccw_vcs := vcs }
  | .localDir => { n with local_vcs := vcs }
  | .invalid => n

/-- First index satisfying a predicate — the search loops of
`selectOutputVC` / `canAcceptMessage` iterate the VC array in order. -/
def findVCIdx (p : VirtualChannel → Bool) : List VirtualChannel → Option ℕ
  | [] => none
  | vc :: rest =>
      if p vc then some 0 else (findVCIdx p rest).map (· + 1)

/-- The `RingNode::selectOutputVC` restricted to one direction's array: first
try an exact priority match with space, then any VC with space; `none`
models the `nullptr` return. -/
def selectOutputVCIdx (vcs : List VirtualChannel) (priority : ℤ) :
    Option ℕ :=
  match findVCIdx (fun vc => decide (vc.priority = priority) && vc.hasSpace) vcs with
  | some i => some i
  | none => findVCIdx (fun vc => vc.hasSpace) vcs

/-- The `RingNode::canAcceptMessage`: some VC with `priority <= msg priority`
has space. -/
def canAcceptMessage (vcs : List VirtualChannel) (priority : ℤ) : Bool :=
  vcs.any fun vc => decide (vc.priority ≤ priority) && vc.hasSpace

/-- The scan of `OptimizedInternalRing::vcArbitration`: keep the first VC
with data whose priority is strictly below the best so far (initial best
is `INT_MAX`, modelled as `none`). -/
def vcArbAux : List VirtualChannel → ℕ → Option (ℕ × ℤ) → Option (ℕ × ℤ)
  | [], _, best => best
  | vc :: rest, i, best =>
      let take : Bool :=
        match best with
        | none => vc.hasData
        | some (_, bp) => vc.hasData && decide (vc.priority < bp)
      vcArbAux rest (i + 1) (if take then some (i, vc.priority) else best)

/-- The `OptimizedInternalRing::vcArbitration`: index of the served VC. -/
def vcArbitration (vcs : List VirtualChannel) : Option ℕ :=
  (vcArbAux vcs 0 none).map Prod.fst

/-- The `OptimizedInternalRing::calculateHops` (OptimizedInternalRing.cc lines
315-335), literal transcription of the branch structure. -/
def calculateHops (num_nodes src dst : ℤ) (dir : RouteDirection) : ℤ :=
  if src = dst then 0
  else
    match dir with
    | .clockwise => if src < dst then dst - src else num_nodes - src + dst
    | .counterClockwise => if dst < src then src - dst else num_nodes - dst + src
    | _ => 0

/-- The `OptimizedInternalRing::selectRoute` (lines 290-313).  The route lookup
cache only memoises this deterministic computation and is dropped. -/
def selectRoute (num_nodes src dst : ℤ) : RouteDirection :=
  if src = dst then .localDir
  else if calculateHops num_nodes src dst .clockwise ≤
          calculateHops num_nodes src dst .counterClockwise then
    .clockwise
  else
    .counterClockwise

/-- The ring state: configuration, node array, and the cycle stamp stored
by `tick` (`total_cycles_`). -/
structure OptimizedInternalRing where
  num_nodes : ℤ
  num_vcs : ℕ
  credits_per_vc : ℕ
  nodes : List RingNode
  total_cycles : ℕ
deriving DecidableEq, Repr

namespace OptimizedInternalRing

/-- The ring constructor: `K` nodes with ids `0..K-1`, each with fresh VC
arrays (the constructor calls `fatal` for `K < 2`; reachability below only
starts from `2 ≤ K`). -/
def mkInit (num_nodes num_vcs credits_per_vc : ℕ) : OptimizedInternalRing :=
  { num_nodes := (num_nodes : ℤ),
    num_vcs := num_vcs,
    credits_per_vc := credits_per_vc,
    nodes := (List.range num_nodes).map
      fun i => RingNode.mkInit (i : ℤ) num_vcs credits_per_vc,
    total_cycles := 0 }

/-- The `getNode`, bounds-checked exactly as in the source. -/
def getNode (ring : OptimizedInternalRing) (node_id : ℤ) : Option RingNode :=
  if 0 ≤ node_id ∧ node_id < ring.num_nodes then
    ring.nodes.get? node_id.toNat
  else
    none

/-- Replace the node at a list index. -/
def setNode (ring : OptimizedInternalRing) (idx : ℕ) (n : RingNode) :
    OptimizedInternalRing :=
  { ring with nodes := ring.nodes.set idx n }

/-- The `OptimizedInternalRing::sendMessage` (lines 189-248): bounds check,
local delivery to the ejection queue when `src == dst`, otherwise route
selection, output-VC selection on the source node (back-pressure `false`
when none has space), then enqueue of the routed copy plus one consumed
credit. -/
def sendMessage (ring : OptimizedInternalRing) (src dst : ℤ)
    (msg : RingMessage) (priority : ℤ) : OptimizedInternalRing × Bool :=
  if src < 0 ∨ ring.num_nodes ≤ src ∨ dst < 0 ∨ ring.num_nodes ≤ dst then
    (ring, false)
  else
    match ring.getNode src with
    | none => (ring, false)
    | some node =>
      if src = dst then
        (ring.setNode src.toNat
          { node with ejection_queue := node.ejection_queue ++ [msg] }, true)
      else
        let dir := selectRoute ring.num_nodes src dst
        if dir = .invalid then (ring, false)
        else
          let vcs := node.getVCs dir
          match selectOutputVCIdx vcs priority with
          | none => (ring, false)
          | some i =>
            match vcs.get? i with
            | none => (ring, false)
            | some vc =>
              let routed : RingMessage :=
                { msg with src_unit := src, dst_unit := dst,
                           timestamp := ring.total_cycles }
              let vc' := VirtualChannel.consumeCredit
                { vc with buffer := vc.buffer ++ [routed] }
              (ring.setNode src.toNat (node.setVCs dir (vcs.set i vc')), true)

/-- Index of `next_cw` / `next_ccw` for the node at list index `idx`
(as wired by `initializeTopology`). -/
def nextIdx (ring : OptimizedInternalRing) (idx : ℕ) (dir : RouteDirection) :
    ℕ :=
  match dir with
  | .clockwise => (idx + 1) % ring.num_nodes.toNat
  | .counterClockwise => (idx + ring.num_nodes.toNat - 1) % ring.num_nodes.toNat
  | _ => idx

/-- The `OptimizedInternalRing::forwardMessage`: `LOCAL` pushes onto the
current node's ejection queue; CW/CCW transfer into the next hop's VC of
the same direction after `canAcceptMessage` and `selectOutputVC`, taking
one credit there.  `none` models the `false` (back-pressure) return. -/
def forwardMessage (ring : OptimizedInternalRing) (idx : ℕ)
    (msg : RingMessage) (dir : RouteDirection) :
    Option OptimizedInternalRing :=
  match dir with
  | .localDir =>
    match ring.nodes.get? idx with
    | none => none
    | some node =>
      some (ring.setNode idx
        { node with ejection_queue := node.ejection_queue ++ [msg] })
  | .invalid => none
  | _ =>
    let nidx := ring.nextIdx idx dir
    match ring.nodes.get? nidx with
    | none => none
    | some next_node =>
      let vcs := next_node.getVCs dir
      if canAcceptMessage vcs msg.priority then
        match selectOutputVCIdx vcs msg.priority with
        | none => none
        | some j =>
          match vcs.get? j with
          | none => none
          | some vc =>
            let vc' := VirtualChannel.consumeCredit
              { vc with buffer := vc.buffer ++ [msg] }
            some (ring.setNode nidx (next_node.setVCs dir (vcs.set j vc')))
      else
        none

/-- Pop the head of VC `i` in direction `dir` of the node at `idx` and
return one credit there — the common tail of the ejection, drop and
successful-forward branches of `processDirectionVCs`. -/
def popAndReturnCredit (ring : OptimizedInternalRing) (idx : ℕ)
    (dir : RouteDirection) (i : ℕ) : OptimizedInternalRing :=
  match ring.nodes.get? idx with
  | none => ring
  | some node =>
    let vcs := node.getVCs dir
    match vcs.get? i with
    | none => ring
    | some vc =>
      let vc' := VirtualChannel.returnCredit { vc with buffer := vc.buffer.tail }
      ring.setNode idx (node.setVCs dir (vcs.set i vc'))

/-- The `OptimizedInternalRing::processDirectionVCs` (lines 349-399): arbitrate
one VC of the direction; eject the head if it is addressed here; drop it
if re-routing fails; otherwise try to forward it one hop and pop it on
success, leaving it in place under back-pressure. -/
def processDirectionVCs (ring : OptimizedInternalRing) (idx : ℕ)
    (dir : RouteDirection) : OptimizedInternalRing :=
  match ring.nodes.get? idx with
  | none => ring
  | some node =>
    let vcs := node.getVCs dir
    match vcArbitration vcs with
    | none => ring
    | some i =>
      match vcs.get? i with
      | none => ring
      | some vc =>
        match vc.buffer with
        | [] => ring
        | msg :: restBuf =>
          if msg.dst_unit = node.node_id then
            let vc' := VirtualChannel.returnCredit { vc with buffer := restBuf }
            ring.setNode idx
              (({ node with
                  ejection_queue := node.ejection_queue ++ [msg] }).setVCs dir
                (vcs.set i vc'))
          else
            let next_dir := selectRoute ring.num_nodes node.node_id msg.dst_unit
            if next_dir = .invalid then
              let vc' := VirtualChannel.returnCredit { vc with buffer := restBuf }
              ring.setNode idx (node.setVCs dir (vcs.set i vc'))
            else
              match ring.forwardMessage idx msg next_dir with
              | some ring' => ring'.popAndReturnCredit idx dir i
              | none => ring

/-- The `OptimizedInternalRing::processNodeRouting`: CW then CCW
(`processInjectionQueue` is a no-op in the source). -/
def processNodeRouting (ring : OptimizedInternalRing) (idx : ℕ) :
    OptimizedInternalRing :=
  (ring.processDirectionVCs idx .clockwise).processDirectionVCs idx
    .counterClockwise

/-- The `OptimizedInternalRing::tick`: stamp the cycle, then process every node
in index order (the periodic statistics update touches no routing state). -/
def tick (ring : OptimizedInternalRing) (cycle : ℕ) : OptimizedInternalRing :=
  (List.range ring.num_nodes.toNat).foldl processNodeRouting
    { ring with total_cycles := cycle }

/-- The `OptimizedInternalRing::receiveMessage`: pop one message, FIFO, from
the node's local ejection queue; `false` when absent or empty. -/
def receiveMessage (ring : OptimizedInternalRing) (node_id : ℤ) :
    OptimizedInternalRing × Option RingMessage :=
  match ring.getNode node_id with
  | none => (ring, none)
  | some node =>
    match node.ejection_queue with
    | [] => (ring, none)
    | msg :: rest =>
      (ring.setNode node_id.toNat { node with ejection_queue := rest },
       some msg)

end OptimizedInternalRing

/-- Credit conservation for one virtual channel:
`buffer.len() + credits == max_credits`. -/
def VirtualChannel.creditInv (vc : VirtualChannel) : Prop :=
  vc.buffer.length + vc.credits = vc.max_credits

instance : DecidablePred VirtualChannel.creditInv := fun vc =>
  inferInstanceAs (Decidable (vc.buffer.length + vc.credits = vc.max_credits))

/-- Credit conservation over all VCs of a node. -/
def RingNode.creditInv (n : RingNode) : Prop :=
  (∀ vc ∈ n.cw_vcs, vc.creditInv) ∧ (∀ vc ∈ n.ccw_vcs, vc.creditInv) ∧
  (∀ vc ∈ n.local_vcs, vc.creditInv)

/-- Credit conservation over the whole ring. -/
def OptimizedInternalRing.creditInv (ring : OptimizedInternalRing) : Prop :=
  ∀ n ∈ ring.nodes, n.creditInv

/-- The states reachable from a freshly constructed ring (the constructor
aborts for fewer than 2 nodes) by the ring's public operations. -/
inductive RingReachable : OptimizedInternalRing → Prop where
  | init (num_nodes num_vcs credits_per_vc : ℕ) (hK : 2 ≤ num_nodes) :
      RingReachable (OptimizedInternalRing.mkInit num_nodes num_vcs credits_per_vc)
  | send {r : OptimizedInternalRing} (src dst : ℤ) (msg : RingMessage)
      (priority : ℤ) : RingReachable r →
      RingReachable (r.sendMessage src dst msg priority).1
  | tick {r : OptimizedInternalRing} (cycle : ℕ) : RingReachable r →
      RingReachable (r.tick cycle)
  | recv {r : OptimizedInternalRing} (node_id : ℤ) : RingReachable r →
      RingReachable (r.receiveMessage node_id).1

/-! ## MultiCorePE configuration validation (MultiCorePE.cc constructor) -/

/-- The two fatal parameter checks in the `MultiCorePE` constructor:
`num_cores_ <= 0 || num_cores_ > 64` and
`neurons_per_core_ <= 0 || neurons_per_core_ > 1024` each call
`output_->fatal`.  Returns `true` when construction aborts. -/
def MultiCorePE.configFatal (num_cores neurons_per_core : ℤ) : Bool :=
  (decide (num_cores ≤ 0) || decide (64 < num_cores)) ||
  (decide (neurons_per_core ≤ 0) || decide (1024 < neurons_per_core))

/-! ## NIC send path (SnnNIC.cc), SimpleNetwork mode

`use_direct_link = false` with a live network interface — the mode the
back-pressure sentences of the specification describe.  The network
itself is external: each send attempt's combined
`spaceToSend(...) && send(...)` outcome enters the model as a boolean
oracle value. -/

/-- The observable NIC state: own node id, the pending send queue, the two
sent counters, plus the histories of spikes handed to the local
`spike_handler` and of spikes accepted by the network.  `output_buf_size`
is kept verbatim: in the source it is a *string* (for example "1KiB")
that is only forwarded to the link-control parameters — no code compares
the pending queue length against it. -/
structure SnnNIC where
  node_id : ℕ
  pending_spikes : List SpikeEvent
  spikes_sent_count : ℕ
  packets_sent_count : ℕ
  delivered_local : List SpikeEvent
  sent_network : List SpikeEvent
  output_buf_size : String
deriving DecidableEq, Repr

namespace SnnNIC

/-- The local-bypass test of `SnnNIC::sendSpike` (SnnNIC.cc lines 129-143):
`dest_node == node_id && source_neuron == dest_neuron`. -/
def isLocalBypass (nic : SnnNIC) (e : SpikeEvent) : Bool :=
  decide (e.dest_node = nic.node_id) && decide (e.neuron_id = e.dest_neuron)

/-- The `SnnNIC::sendSpike` (lines 122-199), SimpleNetwork mode.  Local bypass
invokes the spike handler directly and returns — no statistics, no
network.  Otherwise the spike goes to the network when
`spaceToSend && send` succeeds (`net_ok`), bumping both counters; on
failure it is pushed onto the pending queue unconditionally — the source
has no bound check, no drop and no drop counter on this queue. -/
def sendSpike (nic : SnnNIC) (e : SpikeEvent) (net_ok : Bool) : SnnNIC :=
  if nic.isLocalBypass e then
    { nic with delivered_local := nic.delivered_local ++ [e] }
  else if net_ok then
    { nic with sent_network := nic.sent_network ++ [e],
               spikes_sent_count := nic.spikes_sent_count + 1,
               packets_sent_count := nic.packets_sent_count + 1 }
  else
    { nic with pending_spikes := nic.pending_spikes ++ [e] }

/-- The retry loop of `SnnNIC::spaceAvailable` (lines 251-284).  Each
iteration consumes one oracle pair: the loop guard `spaceToSend(vn, 1)`
and the inner `spaceToSend(vn, size) && send(req, vn)`.  On guard failure
the loop exits with the queue intact; on inner failure the popped head is
re-pushed at the back and the loop breaks; on success the head has been
sent and the loop continues.  Returns the new queue and the number of
spikes sent. -/
def retryLoop : List (Bool × Bool) → List SpikeEvent →
    List SpikeEvent × ℕ
  | _, [] => ([], 0)
  | [], q => (q, 0)
  | (g, ok) :: rest, e :: q =>
    if g then
      if ok then
        let r := retryLoop rest q
        (r.1, r.2 + 1)
      else
        (q ++ [e], 0)
    else
      (e :: q, 0)

/-- The `SnnNIC::spaceAvailable`: drain the pending queue through `retryLoop`,
accounting each sent spike in both counters. -/
def spaceAvailable (nic : SnnNIC) (oracle : List (Bool × Bool)) : SnnNIC :=
  let r := retryLoop oracle nic.pending_spikes
  { nic with pending_spikes := r.1,
             spikes_sent_count := nic.spikes_sent_count + r.2,
             packets_sent_count := nic.packets_sent_count + r.2 }

/-- The `n` consecutive `sendSpike` calls whose network attempts all fail
(no space reported), on pairwise distinct non-local spikes. -/
def repeatedFailedSends (nic : SnnNIC) : ℕ → SnnNIC
  | 0 => nic
  | n + 1 =>
    (repeatedFailedSends nic n).sendSpike
      { neuron_id := 0, timestamp := n, dest_neuron := 1,
        dest_node := nic.node_id + 1, weight := 0, hop_count := 0 } false

end SnnNIC

/-- A NIC as constructed: empty queue, zero counters, the default
`output_buf_size` string "1KiB". -/
def SnnNIC.mkInit (node_id : ℕ) : SnnNIC :=
  { node_id := node_id, pending_spikes := [], spikes_sent_count := 0,
    packets_sent_count := 0, delivered_local := [], sent_network := [],
    output_buf_size := "1KiB" }

/-! ## Spike-trace text loader (SpikeSource::loadTextFormat)

A line is its character list.  `operator>>` on unsigned integers is
modelled for the digit-only records the trace format documents: skip
blanks, then at least one decimal digit; a line on which either
extraction fails is the loader's "malformed" case. -/

/-- One loaded event (`SpikeData` in SpikeSource). -/
structure SpikeData where
  neuron_id : ℕ
  timestamp : ℕ
deriving DecidableEq, Repr

/-- Decimal digit test. -/
def isDigitChar (c : Char) : Bool := decide ('0' ≤ c) && decide (c ≤ '9')

/-- Blank (stream-whitespace) test for the characters a line can carry. -/
def isBlankChar (c : Char) : Bool := decide (c = ' ') || decide (c = '\t')

/-- Skip leading blanks, as `operator>>` does. -/
def skipBlanks : List Char → List Char
  | [] => []
  | c :: cs => if isBlankChar c then skipBlanks cs else c :: cs

/-- Accumulate a run of decimal digits. -/
def takeDigits : List Char → ℕ → ℕ × List Char
  | [], acc => (acc, [])
  | c :: cs, acc =>
    if isDigitChar c then takeDigits cs (acc * 10 + (c.toNat - '0'.toNat))
    else (acc, c :: cs)

/-- One unsigned extraction: `none` when no digit is available. -/
def extractNat (cs : List Char) : Option (ℕ × List Char) :=
  match skipBlanks cs with
  | [] => none
  | c :: rest =>
    if isDigitChar c then some (takeDigits rest (c.toNat - '0'.toNat))
    else none

/-- The `iss >> neuron_id >> timestamp` on one line: both extractions must
succeed (`none` is the malformed-line case; trailing characters are not
examined, as in the source). -/
def parseRecord (line : List Char) : Option (ℕ × ℕ) :=
  match extractNat line with
  | none => none
  | some (nid, rest) =>
    match extractNat rest with
    | none => none
    | some (ts, _) => some (nid, ts)

/-- The `line.empty() || line[0] == '#'` — the comment/blank skip. -/
def lineSkipped (line : List Char) : Bool :=
  match line with
  | [] => true
  | c :: _ => decide (c = '#')

/-- The neuron-id filter of `loadTextFormat`: with `neuron_offset == 0`
every parsed record is loaded; with a nonzero offset only ids in
`[neuron_offset, neuron_offset + 2)` are (`neurons_per_node = 2` is
hard-coded in the source). -/
def shouldLoadEvent (neuron_offset nid : ℕ) : Bool :=
  if neuron_offset = 0 then true
  else decide (neuron_offset ≤ nid) && decide (nid < neuron_offset + 2)

/-- The `SpikeSource::loadTextFormat` (lines 188-243), as the list of events it
pushes onto the spike queue.  `time_scale` is the member the configuration
sets; the text loader never consults it ("时间戳已经是微秒，直接使用"), and
records are stored with the raw neuron id ("保持原始神经元ID") and raw
timestamp.  `events_count` enforces the
`max_events == 0 || events_count < max_events` loop guard. -/
def loadTextFormat (time_scale : F) (max_events neuron_offset : ℕ) :
    List (List Char) → ℕ → List SpikeData
  | [], _ => []
  | l :: ls, events_count =>
    if max_events ≠ 0 ∧ max_events ≤ events_count then []
    else if lineSkipped l then
      loadTextFormat time_scale max_events neuron_offset ls events_count
    else
      match parseRecord l with
      | none => loadTextFormat time_scale max_events neuron_offset ls events_count
      | some (nid, ts) =>
        if shouldLoadEvent neuron_offset nid then
          { neuron_id := nid, timestamp := ts } ::
            loadTextFormat time_scale max_events neuron_offset ls
              (events_count + 1)
        else
          loadTextFormat time_scale max_events neuron_offset ls events_count

/-- The `SpikeSource::convertToSimTime` (lines 298-301):
`static_cast<uint64_t>(data_timestamp * time_scale)` — used by the
N-MNIST loader, not by the text loader. -/
def convertToSimTime (time_scale : F) (data_timestamp : ℕ) : ℕ :=
  ⌊(data_timestamp : F) * time_scale⌋.toNat

/-! ## Theorems -/

/-- C9: the MultiCorePE constructor aborts with a fatal configuration error
exactly when `num_cores` lies outside 1..64 or `neurons_per_core` lies
outside 1..1024; any in-range pair passes both checks. -/
theorem multiCorePE_config_abort_iff (num_cores neurons_per_core : ℤ) :
    MultiCorePE.configFatal num_cores neurons_per_core = true ↔
      ¬(1 ≤ num_cores ∧ num_cores ≤ 64) ∨
      ¬(1 ≤ neurons_per_core ∧ neurons_per_core ≤ 1024) := by
  simp only [MultiCorePE.configFatal, Bool.or_eq_true, decide_eq_true_eq]
  omega

/-- C4 counterexample: serializing a spike with `hop_count = 3` and
deserializing it does not give the spike back — `hop_count` is not among
the serialized fields and comes back as 0. -/
theorem spikeEvent_roundtrip_cex :
    SpikeEvent.deserialize (SpikeEvent.serialize
      { neuron_id := 1, timestamp := 2, dest_neuron := 3, dest_node := 4,
        weight := 5, hop_count := 3 }) ≠
    some { neuron_id := 1, timestamp := 2, dest_neuron := 3, dest_node := 4,
           weight := 5, hop_count := 3 } := by
  decide

/-- C4 (amended): serialize-then-deserialize preserves the five serialized
fields (source neuron, timestamp, destination neuron, destination node,
weight) of every spike, and resets `hop_count` to 0 — `serialize_order`
never writes `hop_count`. -/
theorem spikeEvent_roundtrip_five_fields (e : SpikeEvent) :
    ∃ e', SpikeEvent.deserialize (SpikeEvent.serialize e) = some e' ∧
      e'.neuron_id = e.neuron_id ∧ e'.timestamp = e.timestamp ∧
      e'.dest_neuron = e.dest_neuron ∧ e'.dest_node = e.dest_node ∧
      e'.weight = e.weight ∧ e'.hop_count = 0 :=
  ⟨_, rfl, rfl, rfl, rfl, rfl, rfl, rfl⟩

/-- C1 counterexample: `SnnPE::checkAndFireSpike` fires a neuron whose
membrane potential is above threshold even though its refractory timer is
3, so the claimed "fires iff `v_mem ≥ v_thresh` and
`refractory_timer == 0`" fails on the SnnPE component. -/
theorem snnPE_fire_ignores_refractory_cex :
    ¬(((SnnPE.checkAndFireSpike
          { v_thresh := 1, v_reset := 0, v_rest := 0, t_ref := 2,
            leak_factor := 1/2 }
          { v_mem := 2, refractory_timer := 3, last_spike_time := 0 }).2
        = true) ↔
      ((1 : F) ≤ 2 ∧ (3 : ℕ) = 0)) := by
  norm_num [SnnPE.checkAndFireSpike]

/-- C1 (amended): `SnnPESubComponent::checkAndFireSpike` fires exactly when
`v_mem ≥ v_thresh` and `refractory_timer == 0`, while
`SnnPE::checkAndFireSpike` fires exactly when `v_mem ≥ v_thresh`, with no
refractory test; immediately after firing both set `v_mem = v_reset` and
`refractory_timer = t_ref`, for every parameter set, cycle and neuron
state. -/
theorem checkAndFireSpike_behavior (p : LifParams) (c : ℕ) (n : NeuronState) :
    (((SnnPESubComponent.checkAndFireSpike p c n).2 = true) ↔
      (p.v_thresh ≤ n.v_mem ∧ n.refractory_timer = 0)) ∧
    (((SnnPESubComponent.checkAndFireSpike p c n).2 = true) →
      (SnnPESubComponent.checkAndFireSpike p c n).1.v_mem = p.v_reset ∧
      (SnnPESubComponent.checkAndFireSpike p c n).1.refractory_timer = p.t_ref) ∧
    (((SnnPE.checkAndFireSpike p n).2 = true) ↔ p.v_thresh ≤ n.v_mem) ∧
    (((SnnPE.checkAndFireSpike p n).2 = true) →
      (SnnPE.checkAndFireSpike p n).1.v_mem = p.v_reset ∧
      (SnnPE.checkAndFireSpike p n).1.refractory_timer = p.t_ref) := by
  unfold SnnPESubComponent.checkAndFireSpike SnnPE.checkAndFireSpike
  split_ifs <;> simp_all

/-- C1 witness: a neuron at `v_mem = 1 ≥ 1/2 = v_thresh` with a zero
refractory timer fires in both cores and is reset. -/
theorem checkAndFireSpike_behavior_w :
    ((SnnPESubComponent.checkAndFireSpike
        { v_thresh := 1, v_reset := 0, v_rest := 0, t_ref := 2,
          leak_factor := 1/2 } 7
        { v_mem := 2, refractory_timer := 0, last_spike_time := 0 }).2 = true) ↔
      ((1 : F) ≤ 2 ∧ (0 : ℕ) = 0) :=
  (checkAndFireSpike_behavior
    { v_thresh := 1, v_reset := 0, v_rest := 0, t_ref := 2,
      leak_factor := 1/2 } 7
    { v_mem := 2, refractory_timer := 0, last_spike_time := 0 }).1

/-- C6 counterexample: in `SnnPESubComponent::applyLeak` a non-refractory
neuron at `v_mem = -1 < 0 = v_rest` is left unchanged, while the claimed
unconditional leak formula would move it to `-1/2` (leak factor 1/2). -/
theorem subComponent_leak_below_rest_cex :
    (SnnPESubComponent.tickNeuron
        { v_thresh := 10, v_reset := 0, v_rest := 0, t_ref := 2,
          leak_factor := 1/2 }
        { v_mem := -1, refractory_timer := 0, last_spike_time := 0 }).v_mem ≠
      (0 : F) + (-1 - 0) * (1/2) := by
  norm_num [SnnPESubComponent.tickNeuron, SnnPESubComponent.applyLeak]

/-- C6 (amended): on a tick, a refractory neuron only has its timer
decremented (no leak) in both cores; a non-refractory neuron is leaked by
`v_mem ← v_rest + (v_mem − v_rest)·leak_factor` unconditionally in SnnPE,
but in SnnPESubComponent only when `v_mem > v_rest`, the potential being
left unchanged at or below `v_rest`. -/
theorem tickNeuron_leak_behavior (p : LifParams) (n : NeuronState) :
    (0 < n.refractory_timer →
      (SnnPE.tickNeuron p n).v_mem = n.v_mem ∧
      (SnnPE.tickNeuron p n).refractory_timer = n.refractory_timer - 1 ∧
      (SnnPESubComponent.tickNeuron p n).v_mem = n.v_mem ∧
      (SnnPESubComponent.tickNeuron p n).refractory_timer
        = n.refractory_timer - 1) ∧
    (n.refractory_timer = 0 →
      (SnnPE.tickNeuron p n).v_mem
        = p.v_rest + (n.v_mem - p.v_rest) * p.leak_factor ∧
      (SnnPESubComponent.tickNeuron p n).v_mem
        = (if p.v_rest < n.v_mem
           then p.v_rest + (n.v_mem - p.v_rest) * p.leak_factor
           else n.v_mem)) := by
  unfold SnnPE.tickNeuron SnnPESubComponent.tickNeuron
    SnnPE.applyLeak SnnPESubComponent.applyLeak
  constructor
  · intro h
    rw [if_pos h, if_pos h]
    exact ⟨rfl, rfl, rfl, rfl⟩
  · intro h
    rw [if_neg (by omega), if_neg (by omega)]
    exact ⟨rfl, rfl⟩

/-- C6 witness: a non-refractory neuron above rest is leaked from 1 toward
0 by factor 1/2 in both cores. -/
theorem tickNeuron_leak_behavior_w :
    (SnnPE.tickNeuron
        { v_thresh := 10, v_reset := 0, v_rest := 0, t_ref := 2,
          leak_factor := 1/2 }
        { v_mem := 1, refractory_timer := 0, last_spike_time := 0 }).v_mem
      = (0 : F) + (1 - 0) * (1/2) ∧
    (SnnPESubComponent.tickNeuron
        { v_thresh := 10, v_reset := 0, v_rest := 0, t_ref := 2,
          leak_factor := 1/2 }
        { v_mem := 1, refractory_timer := 0, last_spike_time := 0 }).v_mem
      = (if (0 : F) < 1 then (0 : F) + (1 - 0) * (1/2) else 1) :=
  (tickNeuron_leak_behavior
    { v_thresh := 10, v_reset := 0, v_rest := 0, t_ref := 2,
      leak_factor := 1/2 }
    { v_mem := 1, refractory_timer := 0, last_spike_time := 0 }).2 rfl

/-- C10: `SnnNIC::sendSpike` bypasses the network and the sent-statistics,
delivering straight to the local receive handler, exactly when the spike's
destination node is the NIC's own node and its source neuron id equals its
destination neuron id; a spike addressed to the own node with differing
neuron ids takes the network path (sent when the network accepts it,
queued otherwise). -/
theorem nic_sendSpike_local_bypass (nic : SnnNIC) (e : SpikeEvent)
    (net_ok : Bool) :
    ((nic.sendSpike e net_ok).delivered_local ≠ nic.delivered_local ↔
      (e.dest_node = nic.node_id ∧ e.neuron_id = e.dest_neuron)) ∧
    ((e.dest_node = nic.node_id ∧ e.neuron_id = e.dest_neuron) →
      nic.sendSpike e net_ok =
        { nic with delivered_local := nic.delivered_local ++ [e] }) ∧
    ((e.dest_node = nic.node_id ∧ e.neuron_id ≠ e.dest_neuron) →
      (nic.sendSpike e net_ok).delivered_local = nic.delivered_local ∧
      (if net_ok
       then (nic.sendSpike e net_ok).sent_network = nic.sent_network ++ [e] ∧
            (nic.sendSpike e net_ok).spikes_sent_count
              = nic.spikes_sent_count + 1
       else (nic.sendSpike e net_ok).pending_spikes
              = nic.pending_spikes ++ [e])) := by
  have happ : nic.delivered_local ++ [e] ≠ nic.delivered_local := by
    intro h
    have := congrArg List.length h
    simp at this
  by_cases hb : e.dest_node = nic.node_id ∧ e.neuron_id = e.dest_neuron
  · have hbt : nic.isLocalBypass e = true := by
      simp [SnnNIC.isLocalBypass, hb.1, hb.2]
    have hsend : nic.sendSpike e net_ok =
        { nic with delivered_local := nic.delivered_local ++ [e] } := by
      simp [SnnNIC.sendSpike, hbt]
    refine ⟨?_, fun _ => hsend, fun hc => absurd hb.2 hc.2⟩
    rw [hsend]
    exact iff_of_true happ hb
  · have hbt : nic.isLocalBypass e = false := by
      rw [SnnNIC.isLocalBypass, Bool.and_eq_false_iff]
      rcases Decidable.not_and_iff_or_not.mp hb with h | h
      · exact Or.inl (by simpa using h)
      · exact Or.inr (by simpa using h)
    refine ⟨?_, fun hc => absurd hc hb, fun _ => ?_⟩
    · cases net_ok <;> simp [SnnNIC.sendSpike, hbt, hb]
    · cases net_ok <;> simp [SnnNIC.sendSpike, hbt]

/-- C10 witness: a spike to node 0 from neuron 2 to neuron 2 on NIC 0 is a
local bypass. -/
theorem nic_sendSpike_local_bypass_w :
    ((SnnNIC.mkInit 0).sendSpike
        { neuron_id := 2, timestamp := 0, dest_neuron := 2, dest_node := 0,
          weight := 1, hop_count := 0 } true).delivered_local ≠
      (SnnNIC.mkInit 0).delivered_local ↔
    ((0 : ℕ) = 0 ∧ (2 : ℕ) = 2) :=
  (nic_sendSpike_local_bypass (SnnNIC.mkInit 0)
    { neuron_id := 2, timestamp := 0, dest_neuron := 2, dest_node := 0,
      weight := 1, hop_count := 0 } true).1

/-- An integer in `[-K, 0)` has residue `a + K` modulo `K`. -/
theorem int_emod_eq_add_of_neg {a K : ℤ} (h0 : 0 ≤ a + K) (h1 : a < 0) :
    a % K = a + K := by
  have h2 : (a + K * 1) % K = a % K := Int.add_mul_emod_self_left a K 1
  rw [mul_one] at h2
  rw [← h2]
  exact Int.emod_eq_of_lt h0 (by omega)

/-- C3: for distinct valid nodes on a K-node ring, the hop counts computed
by `calculateHops` are the modular differences
`hops_cw = (dst − src) mod K` and `hops_ccw = (src − dst) mod K`, and
`selectRoute` picks clockwise exactly when `hops_cw ≤ hops_ccw`
(ties clockwise), counter-clockwise otherwise. -/
theorem ring_route_selection (K src dst : ℤ)
    (hs0 : 0 ≤ src) (hsK : src < K) (hd0 : 0 ≤ dst) (hdK : dst < K)
    (hne : src ≠ dst) :
    calculateHops K src dst .clockwise = (dst - src) % K ∧
    calculateHops K src dst .counterClockwise = (src - dst) % K ∧
    (selectRoute K src dst = .clockwise ↔
      (dst - src) % K ≤ (src - dst) % K) ∧
    (selectRoute K src dst = .counterClockwise ↔
      ¬((dst - src) % K ≤ (src - dst) % K)) := by
  have hcw : calculateHops K src dst .clockwise = (dst - src) % K := by
    unfold calculateHops
    rw [if_neg hne]
    by_cases h : src < dst
    · rw [if_pos h, Int.emod_eq_of_lt (by omega) (by omega)]
    · rw [if_neg h, int_emod_eq_add_of_neg (by omega) (by omega)]
      ring
  have hccw : calculateHops K src dst .counterClockwise = (src - dst) % K := by
    unfold calculateHops
    rw [if_neg hne]
    by_cases h : dst < src
    · rw [if_pos h, Int.emod_eq_of_lt (by omega) (by omega)]
    · rw [if_neg h, int_emod_eq_add_of_neg (by omega) (by omega)]
      ring
  refine ⟨hcw, hccw, ?_, ?_⟩ <;>
  · unfold selectRoute
    rw [if_neg hne, hcw, hccw]
    by_cases h : (dst - src) % K ≤ (src - dst) % K <;> simp [h]

/-- C3 witness: on a 4-node ring, from node 0 to node 3 the hop counts are
3 clockwise and 1 counter-clockwise, so the route is counter-clockwise. -/
theorem ring_route_selection_w :
    calculateHops 4 0 3 .clockwise = ((3 : ℤ) - 0) % 4 ∧
    calculateHops 4 0 3 .counterClockwise = ((0 : ℤ) - 3) % 4 ∧
    (selectRoute 4 0 3 = .clockwise ↔
      ((3 : ℤ) - 0) % 4 ≤ ((0 : ℤ) - 3) % 4) ∧
    (selectRoute 4 0 3 = .counterClockwise ↔
      ¬(((3 : ℤ) - 0) % 4 ≤ ((0 : ℤ) - 3) % 4)) :=
  ring_route_selection 4 0 3 (by decide) (by decide) (by decide) (by decide)
    (by decide)

/-- C5 counterexample: on a fresh 2-node ring, `sendMessage(0, 0, msg)`
does not fail — it returns `true` and changes the ring state (the message
is placed in node 0's local ejection queue). -/
theorem ring_send_self_cex :
    ((OptimizedInternalRing.mkInit 2 1 1).sendMessage 0 0
        { mtype := .spikeMessage, src_unit := -1, dst_unit := -1,
          timestamp := 0, priority := 1 } 1).2 = true ∧
    ((OptimizedInternalRing.mkInit 2 1 1).sendMessage 0 0
        { mtype := .spikeMessage, src_unit := -1, dst_unit := -1,
          timestamp := 0, priority := 1 } 1).1 ≠
      OptimizedInternalRing.mkInit 2 1 1 := by
  decide

/-- C5 (amended): for a valid node id, `sendMessage` with `src == dst` does
not fail: it succeeds and performs the local delivery itself, appending
the message unchanged to that node's local ejection queue and touching
nothing else; the ring refuses a send only for out-of-range node ids or
when no output VC has credit. -/
theorem ring_send_self_local_delivery (r : OptimizedInternalRing) (src : ℤ)
    (msg : RingMessage) (priority : ℤ)
    (h0 : 0 ≤ src) (h1 : src < r.num_nodes)
    (node : RingNode) (hn : r.nodes.get? src.toNat = some node) :
    r.sendMessage src src msg priority =
      (r.setNode src.toNat
        { node with ejection_queue := node.ejection_queue ++ [msg] },
       true) := by
  unfold OptimizedInternalRing.sendMessage
  rw [if_neg (by omega)]
  unfold OptimizedInternalRing.getNode
  rw [if_pos ⟨h0, h1⟩, hn]
  simp

/-- C5 witness: local delivery on node 0 of a fresh 2-node ring. -/
theorem ring_send_self_local_delivery_w :
    (OptimizedInternalRing.mkInit 2 1 1).sendMessage 0 0
        { mtype := .spikeMessage, src_unit := -1, dst_unit := -1,
          timestamp := 0, priority := 1 } 1 =
      ((OptimizedInternalRing.mkInit 2 1 1).setNode 0
        { RingNode.mkInit 0 1 1 with
            ejection_queue := (RingNode.mkInit 0 1 1).ejection_queue ++
              [{ mtype := .spikeMessage, src_unit := -1, dst_unit := -1,
                 timestamp := 0, priority := 1 }] },
       true) :=
  ring_send_self_local_delivery (OptimizedInternalRing.mkInit 2 1 1) 0
    { mtype := .spikeMessage, src_unit := -1, dst_unit := -1,
      timestamp := 0, priority := 1 } 1
    (by decide) (by decide) (RingNode.mkInit 0 1 1) (by decide)

/-- The `sendSpike` never changes the NIC's node id. -/
theorem sendSpike_node_id (nic : SnnNIC) (e : SpikeEvent) (ok : Bool) :
    (nic.sendSpike e ok).node_id = nic.node_id := by
  unfold SnnNIC.sendSpike
  split_ifs <;> rfl

/-- Iterated failed sends keep the node id. -/
theorem repeatedFailedSends_node_id (nic : SnnNIC) (n : ℕ) :
    (nic.repeatedFailedSends n).node_id = nic.node_id := by
  induction n with
  | zero => rfl
  | succ k ih => rw [SnnNIC.repeatedFailedSends, sendSpike_node_id, ih]

/-- Each failed non-local send grows the pending queue by exactly one:
nothing is ever dropped from it. -/
theorem repeatedFailedSends_length (nic : SnnNIC) (n : ℕ) :
    (nic.repeatedFailedSends n).pending_spikes.length
      = nic.pending_spikes.length + n := by
  induction n with
  | zero => rfl
  | succ k ih =>
    rw [SnnNIC.repeatedFailedSends]
    have hnb : (nic.repeatedFailedSends k).isLocalBypass
        { neuron_id := 0, timestamp := k, dest_neuron := 1,
          dest_node := nic.node_id + 1, weight := 0, hop_count := 0 }
        = false := by
      simp [SnnNIC.isLocalBypass, repeatedFailedSends_node_id]
    simp [SnnNIC.sendSpike, hnb, ih]
    omega

/-- Iterated failed sends leave the sent counter untouched. -/
theorem repeatedFailedSends_sent (nic : SnnNIC) (n : ℕ) :
    (nic.repeatedFailedSends n).spikes_sent_count = nic.spikes_sent_count := by
  induction n with
  | zero => rfl
  | succ k ih =>
    rw [SnnNIC.repeatedFailedSends]
    have hnb : (nic.repeatedFailedSends k).isLocalBypass
        { neuron_id := 0, timestamp := k, dest_neuron := 1,
          dest_node := nic.node_id + 1, weight := 0, hop_count := 0 }
        = false := by
      simp [SnnNIC.isLocalBypass, repeatedFailedSends_node_id]
    simp [SnnNIC.sendSpike, hnb, ih]

/-- C7 counterexample: after 1025 sends that the network refused, the NIC's
send queue holds 1025 spikes — beyond any reading of the default
`output_buf_size = "1KiB"` — and nothing was dropped or counted: the
source never bounds this queue. -/
theorem nic_queue_exceeds_bound_cex :
    1024 < ((SnnNIC.mkInit 0).repeatedFailedSends 1025).pending_spikes.length ∧
    ((SnnNIC.mkInit 0).repeatedFailedSends 1025).pending_spikes.length
      = 1025 ∧
    ((SnnNIC.mkInit 0).repeatedFailedSends 1025).spikes_sent_count = 0 := by
  have h1 := repeatedFailedSends_length (SnnNIC.mkInit 0) 1025
  have h2 := repeatedFailedSends_sent (SnnNIC.mkInit 0) 1025
  rw [show (SnnNIC.mkInit 0).pending_spikes.length = 0 from rfl] at h1
  rw [show (SnnNIC.mkInit 0).spikes_sent_count = 0 from rfl] at h2
  exact ⟨by omega, by omega, h2⟩

/-- C7 (amended): when the network reports no space, `sendSpike` pushes the
spike onto the send queue (tail), and `spaceAvailable` retries from the
queue head — sending the head and continuing on success, re-queueing the
head at the back and stopping on failure; but the queue is unbounded: no
check against `output_buf_size` exists, nothing is ever dropped from the
queue and no drop is counted, so its length can exceed any bound. -/
theorem nic_backpressure_queue (nic : SnnNIC) (e : SpikeEvent)
    (oracle : List (Bool × Bool)) (q : List SpikeEvent) (hd : SpikeEvent)
    (hnb : ¬(e.dest_node = nic.node_id ∧ e.neuron_id = e.dest_neuron)) :
    (nic.sendSpike e false).pending_spikes = nic.pending_spikes ++ [e] ∧
    (nic.sendSpike e false).spikes_sent_count = nic.spikes_sent_count ∧
    SnnNIC.retryLoop ((true, true) :: oracle) (hd :: q)
      = ((SnnNIC.retryLoop oracle q).1, (SnnNIC.retryLoop oracle q).2 + 1) ∧
    SnnNIC.retryLoop ((true, false) :: oracle) (hd :: q) = (q ++ [hd], 0) ∧
    (∀ n : ℕ, (nic.repeatedFailedSends n).pending_spikes.length
      = nic.pending_spikes.length + n) := by
  have hbf : nic.isLocalBypass e = false := by
    rw [SnnNIC.isLocalBypass, Bool.and_eq_false_iff]
    rcases Decidable.not_and_iff_or_not.mp hnb with h | h
    · exact Or.inl (by simpa using h)
    · exact Or.inr (by simpa using h)
  refine ⟨?_, ?_, rfl, rfl, repeatedFailedSends_length nic⟩ <;>
    simp [SnnNIC.sendSpike, hbf]

/-- C7 witness: a failed send of a non-local spike on a fresh NIC is
queued, and retries behave as stated on a singleton queue. -/
theorem nic_backpressure_queue_w :
    ((SnnNIC.mkInit 0).sendSpike
        { neuron_id := 0, timestamp := 0, dest_neuron := 1, dest_node := 1,
          weight := 0, hop_count := 0 } false).pending_spikes
      = (SnnNIC.mkInit 0).pending_spikes ++
        [{ neuron_id := 0, timestamp := 0, dest_neuron := 1, dest_node := 1,
           weight := 0, hop_count := 0 }] :=
  (nic_backpressure_queue (SnnNIC.mkInit 0)
    { neuron_id := 0, timestamp := 0, dest_neuron := 1, dest_node := 1,
      weight := 0, hop_count := 0 } [] []
    { neuron_id := 0, timestamp := 0, dest_neuron := 1, dest_node := 1,
      weight := 0, hop_count := 0 }
    (by intro h; exact absurd h.1 (by decide))).1

/-- Once the `max_events` guard trips, the loader returns no further
events regardless of the remaining lines. -/
theorem loadTextFormat_guard (ts : F) (max_events neuron_offset : ℕ)
    (lines : List (List Char)) (cnt : ℕ)
    (h : max_events ≠ 0 ∧ max_events ≤ cnt) :
    loadTextFormat ts max_events neuron_offset lines cnt = [] := by
  cases lines with
  | nil => rfl
  | cons l ls => rw [loadTextFormat, if_pos h]

/-- Unfolding equation for the loader on a line whose record parses. -/
theorem loadTextFormat_cons_rec (ts : F) (max_events neuron_offset : ℕ)
    (a : List Char) (as : List (List Char)) (cnt nid tsv : ℕ)
    (hg : ¬(max_events ≠ 0 ∧ max_events ≤ cnt))
    (hs : ¬lineSkipped a = true)
    (hr : parseRecord a = some (nid, tsv)) :
    loadTextFormat ts max_events neuron_offset (a :: as) cnt =
      if shouldLoadEvent neuron_offset nid = true then
        { neuron_id := nid, timestamp := tsv } ::
          loadTextFormat ts max_events neuron_offset as (cnt + 1)
      else loadTextFormat ts max_events neuron_offset as cnt := by
  rw [loadTextFormat, if_neg hg, if_neg hs, hr]

/-- C8 counterexample: the record `3 7` with `time_scale = 2` and
`neuron_offset = 3` is accepted by the text loader, but it is stored as
`(neuron_id 3, timestamp 7)` — the raw file values — not as
`(3 + 3, 7 × 2)` as the claim states. -/
theorem loadTextFormat_raw_fields_cex :
    loadTextFormat 2 0 3 [['3', ' ', '7']] 0
      = [{ neuron_id := 3, timestamp := 7 }] ∧
    ({ neuron_id := 3, timestamp := 7 } : SpikeData) ≠
      { neuron_id := 3 + 3, timestamp := 7 * 2 } := by
  decide

/-- C8 (amended): every event the text loader stores carries the raw
neuron id and raw timestamp of some line's record — `time_scale` is never
applied and `neuron_offset` is never added; a nonzero `neuron_offset`
instead acts as a filter admitting only ids in
`[neuron_offset, neuron_offset + 2)`; empty lines, '#'-prefixed lines and
malformed lines are skipped; and when `max_events` is nonzero at most
`max_events − events_count` further events are loaded. -/
theorem loadTextFormat_behavior (ts : F) (max_events neuron_offset : ℕ)
    (lines : List (List Char)) (cnt : ℕ) (l : List Char) :
    (∀ d ∈ loadTextFormat ts max_events neuron_offset lines cnt,
      ∃ line ∈ lines, parseRecord line = some (d.neuron_id, d.timestamp) ∧
        shouldLoadEvent neuron_offset d.neuron_id = true) ∧
    (lineSkipped l = true →
      loadTextFormat ts max_events neuron_offset (l :: lines) cnt
        = loadTextFormat ts max_events neuron_offset lines cnt) ∧
    (parseRecord l = none →
      loadTextFormat ts max_events neuron_offset (l :: lines) cnt
        = loadTextFormat ts max_events neuron_offset lines cnt) ∧
    (max_events ≠ 0 →
      (loadTextFormat ts max_events neuron_offset lines cnt).length
        ≤ max_events - cnt) := by
  refine ⟨?_, ?_, ?_, ?_⟩
  · induction lines generalizing cnt with
    | nil => intro d hd; simp [loadTextFormat] at hd
    | cons a as ih =>
      intro d hd
      by_cases hg : max_events ≠ 0 ∧ max_events ≤ cnt
      · rw [loadTextFormat_guard ts _ _ _ _ hg] at hd; simp at hd
      · by_cases hs : lineSkipped a = true
        · rw [loadTextFormat, if_neg hg, if_pos hs] at hd
          obtain ⟨line, hl, hp⟩ := ih cnt d hd
          exact ⟨line, List.mem_cons_of_mem a hl, hp⟩
        · cases hrec : parseRecord a with
          | none =>
            have heq : loadTextFormat ts max_events neuron_offset (a :: as) cnt
                = loadTextFormat ts max_events neuron_offset as cnt := by
              rw [loadTextFormat, if_neg hg, if_neg hs, hrec]
            rw [heq] at hd
            obtain ⟨line, hl, hp⟩ := ih cnt d hd
            exact ⟨line, List.mem_cons_of_mem a hl, hp⟩
          | some r =>
            obtain ⟨nid, tsv⟩ := r
            rw [loadTextFormat_cons_rec ts max_events neuron_offset a as cnt
              nid tsv hg hs hrec] at hd
            by_cases hf : shouldLoadEvent neuron_offset nid = true
            · rw [if_pos hf] at hd
              rcases List.mem_cons.mp hd with he | he
              · refine ⟨a, List.mem_cons_self a as, ?_, ?_⟩
                · rw [hrec, he]
                · rw [he]; exact hf
              · obtain ⟨line, hl, hp⟩ := ih (cnt + 1) d he
                exact ⟨line, List.mem_cons_of_mem a hl, hp⟩
            · rw [if_neg hf] at hd
              obtain ⟨line, hl, hp⟩ := ih cnt d hd
              exact ⟨line, List.mem_cons_of_mem a hl, hp⟩
  · intro hs
    by_cases hg : max_events ≠ 0 ∧ max_events ≤ cnt
    · rw [loadTextFormat, if_pos hg, loadTextFormat_guard ts _ _ _ _ hg]
    · rw [loadTextFormat, if_neg hg, if_pos hs]
  · intro hp
    by_cases hg : max_events ≠ 0 ∧ max_events ≤ cnt
    · rw [loadTextFormat, if_pos hg, loadTextFormat_guard ts _ _ _ _ hg]
    · by_cases hs : lineSkipped l = true
      · rw [loadTextFormat, if_neg hg, if_pos hs]
      · rw [loadTextFormat, if_neg hg, if_neg hs, hp]
  · intro hmax
    induction lines generalizing cnt with
    | nil => simp [loadTextFormat]
    | cons a as ih =>
      by_cases hg : max_events ≠ 0 ∧ max_events ≤ cnt
      · rw [loadTextFormat_guard ts _ _ _ _ hg]; simp
      · have hcnt : cnt < max_events := by
          rcases Decidable.not_and_iff_or_not.mp hg with h | h
          · exact absurd hmax h
          · omega
        by_cases hs : lineSkipped a = true
        · rw [loadTextFormat, if_neg hg, if_pos hs]; exact ih cnt
        · cases hrec : parseRecord a with
          | none =>
            have heq : loadTextFormat ts max_events neuron_offset (a :: as) cnt
                = loadTextFormat ts max_events neuron_offset as cnt := by
              rw [loadTextFormat, if_neg hg, if_neg hs, hrec]
            rw [heq]; exact ih cnt
          | some r =>
            obtain ⟨nid, tsv⟩ := r
            rw [loadTextFormat_cons_rec ts max_events neuron_offset a as cnt
              nid tsv hg hs hrec]
            by_cases hf : shouldLoadEvent neuron_offset nid = true
            · rw [if_pos hf]
              have := ih (cnt + 1)
              simp only [List.length_cons]
              omega
            · rw [if_neg hf]; exact ih cnt

/-- C8 witness: on the two-line input `# comment`, `3 7` with
`neuron_offset = 3`, the stored event is the raw record of the second
line. -/
theorem loadTextFormat_behavior_w :
    ∃ line ∈ [['#', ' ', 'c'], ['3', ' ', '7']],
      parseRecord line = some
        ((⟨3, 7⟩ : SpikeData).neuron_id, (⟨3, 7⟩ : SpikeData).timestamp) ∧
      shouldLoadEvent 3 (⟨3, 7⟩ : SpikeData).neuron_id = true :=
  (loadTextFormat_behavior 2 0 3 [['#', ' ', 'c'], ['3', ' ', '7']] 0
      ['#']).1
    ⟨3, 7⟩ (by decide)

/-- Pushing a message into a VC that has space and consuming one credit
preserves credit conservation. -/
theorem creditInv_push {vc : VirtualChannel} (h : vc.creditInv)
    (hs : vc.hasSpace = true) (m : RingMessage) :
    (VirtualChannel.consumeCredit
      { vc with buffer := vc.buffer ++ [m] }).creditInv := by
  unfold VirtualChannel.creditInv at h ⊢
  unfold VirtualChannel.hasSpace at hs
  unfold VirtualChannel.consumeCredit
  rw [Bool.and_eq_true, decide_eq_true_eq, decide_eq_true_eq] at hs
  simp only [List.length_append, List.length_cons, List.length_nil]
  omega

/-- Popping the head of a VC and returning one credit preserves credit
conservation (when the buffer is empty the guarded increment does not
fire). -/
theorem creditInv_popReturn {vc : VirtualChannel} (h : vc.creditInv) :
    (VirtualChannel.returnCredit
      { vc with buffer := vc.buffer.tail }).creditInv := by
  obtain ⟨id, prio, buf, cr, mx⟩ := vc
  have hlen : buf.tail.length = buf.length - 1 := List.length_tail _
  unfold VirtualChannel.creditInv at h ⊢
  unfold VirtualChannel.returnCredit
  dsimp only at h ⊢
  split_ifs with hlt <;> dsimp only <;> omega

/-- Replacing one list element by an invariant-preserving value keeps the
all-elements invariant. -/
theorem allInv_set {l : List VirtualChannel}
    (h : ∀ vc ∈ l, vc.creditInv) {v : VirtualChannel} (hv : v.creditInv)
    (i : ℕ) : ∀ vc ∈ l.set i v, vc.creditInv := by
  intro vc hvc
  rcases List.mem_or_eq_of_mem_set hvc with h1 | h1
  · exact h vc h1
  · rw [h1]; exact hv

/-- The `findVCIdx` returns an index whose element satisfies the predicate. -/
theorem findVCIdx_spec {p : VirtualChannel → Bool}
    {l : List VirtualChannel} {i : ℕ} (h : findVCIdx p l = some i) :
    ∃ vc, l.get? i = some vc ∧ p vc = true := by
  induction l generalizing i with
  | nil => simp [findVCIdx] at h
  | cons a as ih =>
    rw [findVCIdx] at h
    by_cases hp : p a = true
    · rw [if_pos hp] at h
      injection h with h
      exact ⟨a, by rw [← h]; rfl, hp⟩
    · rw [if_neg hp] at h
      cases hx : findVCIdx p as with
      | none => rw [hx] at h; simp at h
      | some j =>
        rw [hx] at h
        have h' : j + 1 = i := by simpa using h
        obtain ⟨vc, hg, hpv⟩ := ih hx
        exact ⟨vc, by rw [← h']; exact hg, hpv⟩

/-- The VC chosen by `selectOutputVC` always has space. -/
theorem selectOutputVCIdx_spec {vcs : List VirtualChannel} {priority : ℤ}
    {i : ℕ} (h : selectOutputVCIdx vcs priority = some i) :
    ∃ vc, vcs.get? i = some vc ∧ vc.hasSpace = true := by
  unfold selectOutputVCIdx at h
  cases hx : findVCIdx
      (fun vc => decide (vc.priority = priority) && vc.hasSpace) vcs with
  | some j =>
    rw [hx] at h
    injection h with h
    subst h
    obtain ⟨vc, hg, hp⟩ := findVCIdx_spec hx
    rw [Bool.and_eq_true] at hp
    exact ⟨vc, hg, hp.2⟩
  | none =>
    rw [hx] at h
    exact findVCIdx_spec h

/-- The `getNode` only returns members of the node list. -/
theorem getNode_mem {r : OptimizedInternalRing} {id : ℤ} {n : RingNode}
    (h : r.getNode id = some n) : n ∈ r.nodes := by
  unfold OptimizedInternalRing.getNode at h
  by_cases hc : 0 ≤ id ∧ id < r.num_nodes
  · rw [if_pos hc] at h
    exact List.get?_mem h
  · rw [if_neg hc] at h
    exact Option.noConfusion h

/-- All VCs of either direction of an invariant node are invariant. -/
theorem nodeInv_getVCs {n : RingNode} (h : n.creditInv)
    (dir : RouteDirection) : ∀ vc ∈ n.getVCs dir, vc.creditInv := by
  cases dir with
  | clockwise => exact h.1
  | counterClockwise => exact h.2.1
  | localDir => exact h.2.2
  | invalid => intro vc hvc; simp [RingNode.getVCs] at hvc

/-- Writing back an all-invariant VC array keeps the node invariant. -/
theorem nodeInv_setVCs {n : RingNode} (h : n.creditInv)
    {dir : RouteDirection} {vcs : List VirtualChannel}
    (hv : ∀ vc ∈ vcs, vc.creditInv) : (n.setVCs dir vcs).creditInv := by
  cases dir with
  | clockwise => exact ⟨hv, h.2.1, h.2.2⟩
  | counterClockwise => exact ⟨h.1, hv, h.2.2⟩
  | localDir => exact ⟨h.1, h.2.1, hv⟩
  | invalid => exact h

/-- Changing only the ejection queue keeps the node invariant. -/
theorem nodeInv_ejection {n : RingNode} (h : n.creditInv)
    (q : List RingMessage) : ({ n with ejection_queue := q }).creditInv := h

/-- Replacing a node by an invariant node keeps the ring invariant. -/
theorem ringInv_setNode {r : OptimizedInternalRing} (h : r.creditInv)
    {n : RingNode} (hn : n.creditInv) (idx : ℕ) :
    (r.setNode idx n).creditInv := by
  intro m hm
  rcases List.mem_or_eq_of_mem_set hm with h1 | h1
  · exact h m h1
  · rw [h1]; exact hn

/-- The common push step: injecting into the selected (spacious) VC of one
node preserves the ring invariant. -/
theorem pushSelected_preserves (r : OptimizedInternalRing)
    (h : r.creditInv) (idx : ℕ) (m : RingMessage) (dir : RouteDirection)
    {node : RingNode} (hmem : node ∈ r.nodes)
    {i : ℕ} {p : ℤ} (hsel : selectOutputVCIdx (node.getVCs dir) p = some i)
    {vc : VirtualChannel} (hget : (node.getVCs dir).get? i = some vc) :
    (r.setNode idx (node.setVCs dir
      ((node.getVCs dir).set i (VirtualChannel.consumeCredit
        { vc with buffer := vc.buffer ++ [m] })))).creditInv := by
  have hnode : node.creditInv := h node hmem
  obtain ⟨vc2, hg', hs'⟩ := selectOutputVCIdx_spec hsel
  rw [hget] at hg'
  injection hg' with hg'
  have hvc : vc.creditInv := nodeInv_getVCs hnode _ vc (List.get?_mem hget)
  have hs2 : vc.hasSpace = true := by rw [← hg'] at hs'; exact hs'
  exact ringInv_setNode h
    (nodeInv_setVCs hnode
      (allInv_set (nodeInv_getVCs hnode _) (creditInv_push hvc hs2 _) i)) _

/-- The `sendMessage` preserves credit conservation in every branch. -/
theorem sendMessage_preserves (r : OptimizedInternalRing)
    (h : r.creditInv) (src dst : ℤ) (msg : RingMessage) (priority : ℤ) :
    (r.sendMessage src dst msg priority).1.creditInv := by
  by_cases h1 : src < 0 ∨ r.num_nodes ≤ src ∨ dst < 0 ∨ r.num_nodes ≤ dst
  · simp only [OptimizedInternalRing.sendMessage, if_pos h1]
    exact h
  · cases hn : r.getNode src with
    | none =>
      simp only [OptimizedInternalRing.sendMessage, if_neg h1, hn]
      exact h
    | some node =>
      have hnode : node.creditInv := h node (getNode_mem hn)
      by_cases h2 : src = dst
      · simp only [OptimizedInternalRing.sendMessage, if_neg h1, hn, if_pos h2]
        exact ringInv_setNode h (nodeInv_ejection hnode _) _
      · by_cases h3 : selectRoute r.num_nodes src dst = RouteDirection.invalid
        · simp only [OptimizedInternalRing.sendMessage, if_neg h1, hn,
            if_neg h2, if_pos h3]
          exact h
        · cases hsel : selectOutputVCIdx
              (node.getVCs (selectRoute r.num_nodes src dst)) priority with
          | none =>
            simp only [OptimizedInternalRing.sendMessage, if_neg h1, hn,
              if_neg h2, if_neg h3, hsel]
            exact h
          | some i =>
            cases hget : (node.getVCs (selectRoute r.num_nodes src dst)).get?
                i with
            | none =>
              simp only [OptimizedInternalRing.sendMessage, if_neg h1, hn,
                if_neg h2, if_neg h3, hsel, hget]
              exact h
            | some vc =>
              simp only [OptimizedInternalRing.sendMessage, if_neg h1, hn,
                if_neg h2, if_neg h3, hsel, hget]
              exact pushSelected_preserves r h src.toNat _ _
                (getNode_mem hn) hsel hget

/-- The `forwardMessage` preserves credit conservation whenever it succeeds. -/
theorem forwardMessage_preserves (r : OptimizedInternalRing)
    (h : r.creditInv) (idx : ℕ) (msg : RingMessage) (dir : RouteDirection)
    {r' : OptimizedInternalRing} (hf : r.forwardMessage idx msg dir = some r') :
    r'.creditInv := by
  cases dir with
  | invalid => simp [OptimizedInternalRing.forwardMessage] at hf
  | localDir =>
    cases hn : r.nodes.get? idx with
    | none =>
      simp only [OptimizedInternalRing.forwardMessage, hn] at hf
      exact Option.noConfusion hf
    | some node =>
      simp only [OptimizedInternalRing.forwardMessage, hn,
        Option.some.injEq] at hf
      rw [← hf]
      exact ringInv_setNode h
        (nodeInv_ejection (h node (List.get?_mem hn)) _) _
  | clockwise =>
    cases hn : r.nodes.get? ((idx + 1) % r.num_nodes.toNat) with
    | none =>
      simp only [OptimizedInternalRing.forwardMessage,
        OptimizedInternalRing.nextIdx, hn] at hf
      exact Option.noConfusion hf
    | some next_node =>
      by_cases hacc :
          canAcceptMessage (next_node.getVCs .clockwise) msg.priority = true
      · cases hsel : selectOutputVCIdx (next_node.getVCs .clockwise)
            msg.priority with
        | none =>
          simp only [OptimizedInternalRing.forwardMessage,
            OptimizedInternalRing.nextIdx, hn, if_pos hacc, hsel] at hf
          exact Option.noConfusion hf
        | some j =>
          cases hget : (next_node.getVCs .clockwise).get? j with
          | none =>
            simp only [OptimizedInternalRing.forwardMessage,
              OptimizedInternalRing.nextIdx, hn, if_pos hacc, hsel,
              hget] at hf
            exact Option.noConfusion hf
          | some vc =>
            simp only [OptimizedInternalRing.forwardMessage,
              OptimizedInternalRing.nextIdx, hn, if_pos hacc, hsel, hget,
              Option.some.injEq] at hf
            rw [← hf]
            exact pushSelected_preserves r h _ msg .clockwise
              (List.get?_mem hn) hsel hget
      · simp only [OptimizedInternalRing.forwardMessage,
          OptimizedInternalRing.nextIdx, hn, if_neg hacc] at hf
        exact Option.noConfusion hf
  | counterClockwise =>
    cases hn : r.nodes.get? ((idx + r.num_nodes.toNat - 1)
        % r.num_nodes.toNat) with
    | none =>
      simp only [OptimizedInternalRing.forwardMessage,
        OptimizedInternalRing.nextIdx, hn] at hf
      exact Option.noConfusion hf
    | some next_node =>
      by_cases hacc : canAcceptMessage (next_node.getVCs .counterClockwise)
          msg.priority = true
      · cases hsel : selectOutputVCIdx (next_node.getVCs .counterClockwise)
            msg.priority with
        | none =>
          simp only [OptimizedInternalRing.forwardMessage,
            OptimizedInternalRing.nextIdx, hn, if_pos hacc, hsel] at hf
          exact Option.noConfusion hf
        | some j =>
          cases hget : (next_node.getVCs .counterClockwise).get? j with
          | none =>
            simp only [OptimizedInternalRing.forwardMessage,
              OptimizedInternalRing.nextIdx, hn, if_pos hacc, hsel,
              hget] at hf
            exact Option.noConfusion hf
          | some vc =>
            simp only [OptimizedInternalRing.forwardMessage,
              OptimizedInternalRing.nextIdx, hn, if_pos hacc, hsel, hget,
              Option.some.injEq] at hf
            rw [← hf]
            exact pushSelected_preserves r h _ msg .counterClockwise
              (List.get?_mem hn) hsel hget
      · simp only [OptimizedInternalRing.forwardMessage,
          OptimizedInternalRing.nextIdx, hn, if_neg hacc] at hf
        exact Option.noConfusion hf

/-- The `popAndReturnCredit` preserves credit conservation. -/
theorem popAndReturnCredit_preserves (r : OptimizedInternalRing)
    (h : r.creditInv) (idx : ℕ) (dir : RouteDirection) (i : ℕ) :
    (r.popAndReturnCredit idx dir i).creditInv := by
  cases hn : r.nodes.get? idx with
  | none =>
    simp only [OptimizedInternalRing.popAndReturnCredit, hn]
    exact h
  | some node =>
    have hnode : node.creditInv := h node (List.get?_mem hn)
    cases hget : (node.getVCs dir).get? i with
    | none =>
      simp only [OptimizedInternalRing.popAndReturnCredit, hn, hget]
      exact h
    | some vc =>
      simp only [OptimizedInternalRing.popAndReturnCredit, hn, hget]
      have hvc : vc.creditInv := nodeInv_getVCs hnode _ vc (List.get?_mem hget)
      exact ringInv_setNode h
        (nodeInv_setVCs hnode
          (allInv_set (nodeInv_getVCs hnode _) (creditInv_popReturn hvc) i)) _

/-- The `processDirectionVCs` preserves credit conservation. -/
theorem processDirectionVCs_preserves (r : OptimizedInternalRing)
    (h : r.creditInv) (idx : ℕ) (dir : RouteDirection) :
    (r.processDirectionVCs idx dir).creditInv := by
  cases hn : r.nodes.get? idx with
  | none =>
    simp only [OptimizedInternalRing.processDirectionVCs, hn]
    exact h
  | some node =>
    have hnode : node.creditInv := h node (List.get?_mem hn)
    cases harb : vcArbitration (node.getVCs dir) with
    | none =>
      simp only [OptimizedInternalRing.processDirectionVCs, hn, harb]
      exact h
    | some i =>
      cases hget : (node.getVCs dir).get? i with
      | none =>
        simp only [OptimizedInternalRing.processDirectionVCs, hn, harb, hget]
        exact h
      | some vc =>
        have hvc : vc.creditInv :=
          nodeInv_getVCs hnode _ vc (List.get?_mem hget)
        cases hbuf : vc.buffer with
        | nil =>
          simp only [OptimizedInternalRing.processDirectionVCs, hn, harb,
            hget, hbuf]
          exact h
        | cons msg restBuf =>
          have hvc' : (VirtualChannel.returnCredit
              { vc with buffer := restBuf }).creditInv := by
            have := creditInv_popReturn hvc
            rw [hbuf] at this
            exact this
          by_cases h1 : msg.dst_unit = node.node_id
          · simp only [OptimizedInternalRing.processDirectionVCs, hn, harb,
              hget, hbuf, if_pos h1]
            exact ringInv_setNode h
              (nodeInv_setVCs (nodeInv_ejection hnode _)
                (allInv_set (nodeInv_getVCs hnode _) hvc' i)) _
          · by_cases h2 : selectRoute r.num_nodes node.node_id msg.dst_unit
                = RouteDirection.invalid
            · simp only [OptimizedInternalRing.processDirectionVCs, hn, harb,
                hget, hbuf, if_neg h1, if_pos h2]
              exact ringInv_setNode h
                (nodeInv_setVCs hnode
                  (allInv_set (nodeInv_getVCs hnode _) hvc' i)) _
            · cases hfwd : r.forwardMessage idx msg
                  (selectRoute r.num_nodes node.node_id msg.dst_unit) with
              | none =>
                simp only [OptimizedInternalRing.processDirectionVCs, hn,
                  harb, hget, hbuf, if_neg h1, if_neg h2, hfwd]
                exact h
              | some r' =>
                simp only [OptimizedInternalRing.processDirectionVCs, hn,
                  harb, hget, hbuf, if_neg h1, if_neg h2, hfwd]
                exact popAndReturnCredit_preserves r'
                  (forwardMessage_preserves r h idx msg _ hfwd) idx dir i

/-- The `processNodeRouting` preserves credit conservation. -/
theorem processNodeRouting_preserves (r : OptimizedInternalRing)
    (h : r.creditInv) (idx : ℕ) : (r.processNodeRouting idx).creditInv :=
  processDirectionVCs_preserves _
    (processDirectionVCs_preserves r h idx .clockwise) idx .counterClockwise

/-- The `tick` preserves credit conservation. -/
theorem tick_preserves (r : OptimizedInternalRing) (h : r.creditInv)
    (cycle : ℕ) : (r.tick cycle).creditInv := by
  unfold OptimizedInternalRing.tick
  have hfold : ∀ (l : List ℕ) (r' : OptimizedInternalRing), r'.creditInv →
      (l.foldl OptimizedInternalRing.processNodeRouting r').creditInv := by
    intro l
    induction l with
    | nil => intro r' h'; exact h'
    | cons a l ih =>
      intro r' h'
      exact ih _ (processNodeRouting_preserves r' h' a)
  exact hfold _ _ h

/-- The `receiveMessage` preserves credit conservation. -/
theorem receiveMessage_preserves (r : OptimizedInternalRing)
    (h : r.creditInv) (node_id : ℤ) :
    (r.receiveMessage node_id).1.creditInv := by
  cases hn : r.getNode node_id with
  | none =>
    simp only [OptimizedInternalRing.receiveMessage, hn]
    exact h
  | some node =>
    cases hq : node.ejection_queue with
    | nil =>
      simp only [OptimizedInternalRing.receiveMessage, hn, hq]
      exact h
    | cons msg rest =>
      simp only [OptimizedInternalRing.receiveMessage, hn, hq]
      exact ringInv_setNode h (nodeInv_ejection (h node (getNode_mem hn)) _) _

/-- A fresh ring satisfies credit conservation. -/
theorem mkInit_creditInv (num_nodes num_vcs credits_per_vc : ℕ) :
    (OptimizedInternalRing.mkInit num_nodes num_vcs credits_per_vc).creditInv := by
  intro n hn
  unfold OptimizedInternalRing.mkInit at hn
  simp only [List.mem_map] at hn
  obtain ⟨i, _, rfl⟩ := hn
  have hvc : ∀ vc ∈ initVCList num_vcs credits_per_vc, vc.creditInv := by
    intro vc hvc
    simp only [initVCList, List.mem_map, List.mem_range] at hvc
    obtain ⟨j, _, rfl⟩ := hvc
    unfold VirtualChannel.creditInv
    simp
  exact ⟨hvc, hvc, hvc⟩

/-- C2: credit conservation `buffer.len() + credits == max_credits` holds
for every virtual channel of every ring node in every state reachable from
a fresh ring by `sendMessage`, `tick` and `receiveMessage`. -/
theorem ring_credit_conservation {r : OptimizedInternalRing}
    (h : RingReachable r) : r.creditInv := by
  induction h with
  | init num_nodes num_vcs credits_per_vc hK =>
      exact mkInit_creditInv num_nodes num_vcs credits_per_vc
  | send src dst msg priority _ ih =>
      exact sendMessage_preserves _ ih src dst msg priority
  | tick cycle _ ih => exact tick_preserves _ ih cycle
  | recv node_id _ ih => exact receiveMessage_preserves _ ih node_id

/-- C2 witness: after injecting one message on a fresh 2-node ring and
running one tick, every VC still conserves its credits. -/
theorem ring_credit_conservation_w :
    (((OptimizedInternalRing.mkInit 2 1 1).sendMessage 0 1
        { mtype := .spikeMessage, src_unit := -1, dst_unit := -1,
          timestamp := 0, priority := 1 } 1).1.tick 1).creditInv :=
  ring_credit_conservation
    (RingReachable.tick 1
      (RingReachable.send 0 1
        { mtype := .spikeMessage, src_unit := -1, dst_unit := -1,
          timestamp := 0, priority := 1 } 1
        (RingReachable.init 2 1 1 (by decide))))

end SnnDL
